import Mathlib

/-!
Shallow embedding of the smart-file-organizer core (`src/main.py`).

Paths are modelled as lists of segments (`PathT`); the paths handed to the
engine are already canonical (the program resolves its arguments), so
`Path.resolve` is the identity in the model.  File contents are byte lists;
`sha256sum` is modelled as an injective fingerprint of the content, which is
exactly the invariant the program relies on.  The filesystem is a record of
regular files (path, content, modification year/month), directories, and the
parsed content of the persisted index file.  Python library calls
(`hashlib`, `json.loads`, `datetime.strftime`, `str` formatting of integers)
are modelled by explicit executable functions.
-/

abbrev PathT := List String
abbrev Content := List Nat
abbrev Mtime := Nat × Nat   -- modification time as (year, month)

/-- Last path segment, i.e. `Path.name`. -/
def pathName (p : PathT) : String := p.getLastD ""

/-- ASCII lowercasing of a string, modelling Python's `str.lower` /
`Path` lowercasing used by the classifier. -/
def strLower (s : String) : String := ⟨s.data.map Char.toLower⟩

/-- Substring containment, Python's `needle in hay` on strings. -/
def strContains (hay needle : String) : Bool := decide (needle.data <:+: hay.data)

/-- Python's `hay.startswith(pre)` on strings. -/
def strStartsWith (hay pre : String) : Bool := decide (pre.data <+: hay.data)

/-- The string form of a path, `"/".join(segments)` (i.e. `str(path)`).
The separator choice is irrelevant to the substring heuristics modelled
here, which match inside single segments. -/
def joinPath (segs : List String) : String := String.intercalate "/" segs

/-- Split a character list at its last `'.'`: returns the part before the
dot and the part from the dot on, or `none` when no dot occurs. -/
def splitAtLastDot : List Char → Option (List Char × List Char)
  | [] => none
  | c :: cs =>
    match splitAtLastDot cs with
    | some (pre, suf) => some (c :: pre, suf)
    | none => if c = '.' then some ([], '.' :: cs) else none

/-- Python's `Path.suffix` of a file name: the extension from the last dot on, empty
unless the last dot is neither the first nor the last character
(Python `pathlib` semantics). -/
def pathSuffix (name : String) : String :=
  match splitAtLastDot name.data with
  | some (pre, suf) => if pre ≠ [] ∧ 2 ≤ suf.length then ⟨suf⟩ else ""
  | none => ""

/-- Python's `Path.stem` of a file name: the name with `pathSuffix` removed. -/
def pathStem (name : String) : String :=
  match splitAtLastDot name.data with
  | some (pre, suf) => if pre ≠ [] ∧ 2 ≤ suf.length then ⟨pre⟩ else name
  | none => name

/-- Decimal digit characters of `n`, most significant first; the first
argument is fuel (any value `≥ n` is enough). Models Python's `str(i)`
for the collision counter. -/
def natToDecAux : Nat → Nat → List Char
  | 0, _ => []
  | fuel + 1, n => if n = 0 then [] else natToDecAux fuel (n / 10) ++ [Nat.digitChar (n % 10)]

/-- Decimal rendering of a natural number (Python `str(i)`). -/
def natToDec (n : Nat) : String := if n = 0 then "0" else ⟨natToDecAux n n⟩

/-- Reads a decimal digit string back to the number; left inverse of
`natToDec`, used only to prove injectivity of the rendering. -/
def decFromChars (cs : List Char) : Nat :=
  cs.foldl (fun acc c => acc * 10 + (c.toNat - 48)) 0


/-! ## Classifier (`EXTENSION_MAP`, `classify_file`, `month_bucket`, `source_bucket`) -/

/-- The `EXTENSION_MAP` table from `src/main.py`, in source (insertion) order, which is
the iteration order of a Python dict. -/
def EXTENSION_MAP : List (String × List String) :=
  [ ("images", [".jpg", ".jpeg", ".png", ".gif", ".bmp", ".webp", ".svg", ".heic"]),
    ("videos", [".mp4", ".mov", ".avi", ".mkv", ".webm", ".wmv"]),
    ("audio", [".mp3", ".wav", ".flac", ".aac", ".ogg", ".m4a"]),
    ("documents", [".pdf", ".txt", ".rtf", ".md"]),
    ("spreadsheets", [".csv", ".xls", ".xlsx", ".ods"]),
    ("presentations", [".ppt", ".pptx", ".key", ".odp"]),
    ("archives", [".zip", ".rar", ".7z", ".tar", ".gz", ".bz2"]),
    ("code", [".py", ".js", ".ts", ".jsx", ".tsx", ".html", ".css", ".java", ".c",
              ".cpp", ".go", ".rs", ".php", ".json", ".yaml", ".yml", ".sql"]),
    ("executables", [".exe", ".msi", ".bat", ".cmd", ".ps1"]) ]

def IGNORED_DIRS : List String := ["$recycle.bin", "system volume information", ".git", "__pycache__"]

def INDEX_FILENAME : String := ".organizer_index.json"

/-- The classifier `classify_file`: category of the lowercased extension, `"other"` when no
category's extension set contains it. -/
def classify_file (path : PathT) : String :=
  let ext := strLower (pathSuffix (pathName path))
  match EXTENSION_MAP.find? (fun ce => ce.2.any (fun e => decide (e = ext))) with
  | some ce => ce.1
  | none => "other"

/-- The `month_bucket` function: `YYYY-MM` from the stored modification time; models
`datetime.fromtimestamp(st_mtime).strftime("%Y-%m")`. -/
def month_bucket (mt : Mtime) : String :=
  natToDec mt.1 ++ "-" ++ (if mt.2 < 10 then "0" ++ natToDec mt.2 else natToDec mt.2)

/-- The `source_bucket` heuristic: the ordered filename/path rules from `src/main.py`
lines 81-112, transcribed branch for branch. -/
def source_bucket (path : PathT) : String :=
  let name := strLower (pathName path)
  let parent := strLower (joinPath path.dropLast)
  let ext := strLower (pathSuffix (pathName path))
  if strContains name "whatsapp" || strContains parent "whatsapp" then "whatsapp"
  else if strContains name "telegram" || strContains parent "telegram" then "telegram"
  else if strContains name "discord" || strContains parent "discord" then "discord"
  else if strContains name "slack" || strContains parent "slack" then "slack"
  else if strStartsWith name "screenshot" || strContains name "screen shot" ||
          strStartsWith name "snip" then "screenshots"
  else if strStartsWith name "img_" || strStartsWith name "dsc_" ||
          strStartsWith name "pxl_" then "camera_exports"
  else if strContains name "chrome" || strContains name "edge" ||
          strContains name "firefox" then "browser_downloads"
  else if ext = ".crdownload" || ext = ".part" then "browser_partial_downloads"
  else if strContains name "zoom" || strContains name "meeting" ||
          strContains name "teams" then "meetings"
  else if ext = ".torrent" then "torrent"
  else "manual_or_unknown"

/-- Content fingerprint `sha256sum`.  The hash (an external library call) is
modelled as an injective function of the file content - precisely the
invariant the engine assumes of SHA-256: equal fingerprint iff
byte-identical content. -/
def sha256sum (data : Content) : Content := data

/-! ## Filesystem state, index, configuration -/

/-- Filesystem state: regular files (path, content, mtime), directories, and
the parsed content of the persisted index file
(`destination/.organizer_index.json`); `none` when that file is absent. -/
structure FS where
  files : List (PathT × Content × Mtime)
  dirs : List PathT
  savedIndex : Option (List (Content × PathT))
deriving DecidableEq

/-- The `Config` record from `src/main.py` (paths already `expanduser().resolve()`d). -/
structure Config where
  source : PathT
  destination : PathT
  dry_run : Bool
  recursive : Bool
  keep_empty : Bool
  sort_mode : String
deriving DecidableEq

abbrev Index := List (Content × PathT)

/-- Python's `index.get(digest)`. -/
def indexGet (idx : Index) (k : Content) : Option PathT :=
  (idx.find? (fun e => decide (e.1 = k))).map (fun e => e.2)

/-- Dict assignment `index[digest] = v`: replace the entry when the key is present,
append it otherwise (Python dict assignment). -/
def indexSet (idx : Index) (k : Content) (v : PathT) : Index :=
  if idx.any (fun e => decide (e.1 = k)) then
    idx.map (fun e => if e.1 = k then (k, v) else e)
  else idx ++ [(k, v)]

/-- Python's `path.is_file()`. -/
def isFileP (fs : FS) (p : PathT) : Bool := fs.files.any (fun e => decide (e.1 = p))

/-- Python's `path.is_dir()`. -/
def isDirP (fs : FS) (p : PathT) : Bool := fs.dirs.any (fun d => decide (d = p))

/-- Python's `path.exists()`: a file or a directory is at `p`. -/
def existsP (fs : FS) (p : PathT) : Bool := isFileP fs p || isDirP fs p

/-- Content and mtime of the file at `p` (first entry, as a real filesystem
has at most one). -/
def lookupFile (files : List (PathT × Content × Mtime)) (p : PathT) : Option (Content × Mtime) :=
  (files.find? (fun e => decide (e.1 = p))).map (fun e => e.2)

/-- All nonempty prefixes of `p`: the directories `mkdir(parents=True)`
creates. -/
def ancestors (p : PathT) : List PathT := (List.range p.length).map (fun i => p.take (i + 1))

/-- Python's `p.mkdir(parents=True, exist_ok=True)`. -/
def mkdirP (fs : FS) (p : PathT) : FS :=
  { fs with dirs := fs.dirs ++ (ancestors p).filter (fun d => !(isDirP fs d)) }

/-- Every path occupied in `fs` (used for the collision-loop bound). -/
def allPaths (fs : FS) : List PathT := fs.files.map (fun e => e.1) ++ fs.dirs

/-! ## Collision resolution (`safe_name`) -/

/-- The candidate name `f"{stem} ({n}){suffix}"` in the parent directory of
`target` (`src/main.py` line 132). -/
def nthCandidate (target : PathT) (n : Nat) : PathT :=
  target.dropLast ++
    [pathStem (pathName target) ++ " (" ++ natToDec n ++ ")" ++ pathSuffix (pathName target)]

/-- The `while True` search of `safe_name`, with explicit fuel.  The theorem
`safe_name_fuel_enough` shows the fuel used by `safe_name` is never
exhausted, so this equals the unbounded source loop. -/
def safeNameAux (fs : FS) (target : PathT) : Nat → Nat → PathT
  | i, 0 => nthCandidate target i
  | i, fuel + 1 =>
    if existsP fs (nthCandidate target i) then safeNameAux fs target (i + 1) fuel
    else nthCandidate target i

/-- The `safe_name` function from `src/main.py` lines 123-135. -/
def safe_name (fs : FS) (target : PathT) : PathT :=
  if existsP fs target then safeNameAux fs target 1 ((allPaths fs).length + 1)
  else target

/-! ## Index file loading (`load_index`) -/

/-- A parsed JSON value.  The index file is expected to be an object mapping
fingerprint strings to path strings; other shapes can still occur on disk. -/
inductive JsonValue where
  | obj (entries : List (String × String))
  | arr (elems : List JsonValue)
  | num (n : Int)
  | str (s : String)
  | boolean (b : Bool)
  | null

/-- The `load_index` function from `src/main.py` lines 138-144 with `json.loads`
abstracted: the argument is `none` when the index file does not exist,
`some none` when reading or parsing raises
(`json.JSONDecodeError`/`OSError`), and `some (some v)` when the text parses
to the JSON value `v`, which is returned unchanged. -/
def load_index (file : Option (Option JsonValue)) : JsonValue :=
  match file with
  | none => .obj []
  | some none => .obj []
  | some (some v) => v

/-! ## Scanner, placer, deduplicator, pruner, pass -/

/-- Rename the entry at `src` to `dst` (`shutil.move` on the model state). -/
def renameFile (files : List (PathT × Content × Mtime)) (src dst : PathT) :
    List (PathT × Content × Mtime) :=
  files.map (fun e => if e.1 = src then (dst, e.2) else e)

/-- The `move_file` function from `src/main.py` lines 176-181: resolve the collision, in
dry-run return the resolved target untouched, otherwise create the parent
directories and relocate the file. -/
def move_file (fs : FS) (src dst : PathT) (dry_run : Bool) : FS × PathT :=
  let d := safe_name fs dst
  if dry_run then (fs, d)
  else
    let fs1 := mkdirP fs d.dropLast
    ({ fs1 with files := renameFile fs1.files src d }, d)

/-- The path-only part of `should_ignore`: reserved directory segment,
reserved index filename, or containment in the destination tree
(`resolve().relative_to(destination.resolve())` succeeds iff the destination
segments are a prefix). -/
def ignoreStatic (destination : PathT) (p : PathT) : Bool :=
  p.any (fun part => IGNORED_DIRS.any (fun d => decide (d = strLower part))) ||
  decide (pathName p = INDEX_FILENAME) ||
  decide (destination <+: p)

/-- The `should_ignore` predicate from `src/main.py` lines 153-165. -/
def should_ignore (fs : FS) (destination : PathT) (p : PathT) : Bool :=
  !(isFileP fs p) || ignoreStatic destination p

/-- Is `p` yielded by the glob of `list_candidate_files`: `rglob("*")` yields
the strict descendants of `source`, `glob("*")` its direct children. -/
def inScope (cfg : Config) (p : PathT) : Bool :=
  if cfg.recursive then decide (cfg.source <+: p) && !(decide (p = cfg.source))
  else decide (p.dropLast = cfg.source)

/-- Candidate enumeration `list_candidate_files`: candidate files in filesystem order.  Directories
yielded by the glob are discarded by `should_ignore`'s `is_file` check, so
iterating the file entries directly is equivalent. -/
def list_candidate_files (fs : FS) (cfg : Config) : List PathT :=
  (fs.files.map (fun e => e.1)).filter
    (fun p => inScope cfg p && !(should_ignore fs cfg.destination p))

/-- The `organize_file` function from `src/main.py` lines 184-203.  Returns `none` when
the file is gone (the source raises and the pass records a per-file error);
otherwise the `(status, final_path)` pair together with the updated
filesystem and in-memory index. -/
def organize_file (fs : FS) (cfg : Config) (index : Index) (path : PathT) :
    Option (String × PathT × FS × Index) :=
  match lookupFile fs.files path with
  | none => none
  | some (c, mt) =>
    let category := classify_file path
    let bucket := if cfg.sort_mode = "source" then source_bucket path else month_bucket mt
    let base_target := cfg.destination ++ [category, bucket, pathName path]
    let digest := sha256sum c
    let isDup := match indexGet index digest with
      | some known_path => existsP fs known_path && !(decide (known_path = path))
      | none => false
    if isDup then
      let dup_target := cfg.destination ++ ["duplicates", bucket, pathName path]
      let r := move_file fs path dup_target cfg.dry_run
      some ("duplicate", r.2, r.1, index)
    else
      let r := move_file fs path base_target cfg.dry_run
      some ("moved", r.2, r.1, indexSet index digest r.2)

/-- Can `directory.rmdir()` succeed: the directory exists and holds no file
or directory strictly below it. -/
def rmdirOk (fs : FS) (d : PathT) : Bool :=
  isDirP fs d &&
  !(fs.files.any (fun e => decide (d <+: e.1) && !(decide (e.1 = d)))) &&
  !(fs.dirs.any (fun x => decide (d <+: x) && !(decide (x = d))))

def removeDir (fs : FS) (d : PathT) : FS :=
  { fs with dirs := fs.dirs.filter (fun x => !(decide (x = d))) }

/-- Stable insertion keeping segment counts descending (Python
`sorted(key=len(parts), reverse=True)` is deepest-first; order among equal
depths cannot affect emptiness checks). -/
def insertByDepth (d : PathT) : List PathT → List PathT
  | [] => [d]
  | x :: xs => if d.length ≤ x.length then x :: insertByDepth d xs else d :: x :: xs

def sortByDepthDesc (l : List PathT) : List PathT := l.foldl (fun acc d => insertByDepth d acc) []

/-- The `prune_empty_dirs` function from `src/main.py` lines 206-213: snapshot the
directories under `root`, deepest first, attempt `rmdir` on each and
silently skip failures. -/
def prune_empty_dirs (fs : FS) (root : PathT) (keep_empty : Bool) : FS :=
  if keep_empty then fs
  else
    let ds := sortByDepthDesc (fs.dirs.filter
      (fun d => decide (root <+: d) && !(decide (d = root))))
    ds.foldl (fun acc d => if rmdirOk acc d then removeDir acc d else acc) fs

/-- One iteration of the candidate loop of `organize_pass` (lines 224-234):
on success bump the matching counter, on a per-file error leave the counters
and state alone and continue. -/
def processOne (cfg : Config) (st : FS × Index × Nat × Nat) (path : PathT) :
    FS × Index × Nat × Nat :=
  match organize_file st.1 cfg st.2.1 path with
  | some (status, _, fs', idx') =>
    if status = "duplicate" then (fs', idx', st.2.2.1, st.2.2.2 + 1)
    else (fs', idx', st.2.2.1 + 1, st.2.2.2)
  | none => st

/-- The `save_index` function from lines 147-150: a no-op in dry-run, otherwise replaces
the persisted index file's content. -/
def save_index (fs : FS) (index : Index) (dry_run : Bool) : FS :=
  if dry_run then fs else { fs with savedIndex := some index }

/-- The `organize_pass` function from `src/main.py` lines 216-238.  The index file is
loaded from the model's parsed slot (an index this program saved always
parses back; `load_index` above covers the corrupt/missing cases, both of
which give the empty index, as does `getD []` here). -/
def organize_pass (cfg : Config) (fs : FS) : FS × Nat × Nat :=
  let fs0 := mkdirP fs cfg.destination
  let index := fs0.savedIndex.getD []
  let files := list_candidate_files fs0 cfg
  let r := files.foldl (processOne cfg) (fs0, index, 0, 0)
  let fs2 := save_index r.1 r.2.1 cfg.dry_run
  let fs3 := prune_empty_dirs fs2 cfg.source cfg.keep_empty
  (fs3, r.2.2.1, r.2.2.2)

/-- The `for file_path in files` loop of `organize_pass` (lines 224-234) with
the per-file outcome abstracted: `Except.ok status` when `organize_file`
returns `(status, target)`, `Except.error e` when it raises (hash or move
failure).  Returns `(moved, duplicates, errors)`. -/
def organize_loop (results : List (Except String String)) : Nat × Nat × Nat :=
  results.foldl
    (fun acc r =>
      match r with
      | .ok status =>
        if status = "duplicate" then (acc.1, acc.2.1 + 1, acc.2.2)
        else (acc.1 + 1, acc.2.1, acc.2.2)
      | .error _ => (acc.1, acc.2.1, acc.2.2 + 1))
    (0, 0, 0)

/-! ## Entry point (`main`) -/

/-- Command-line arguments after `expanduser().resolve()` (the watch loop,
which never terminates, is outside the model; its configuration checks are
the same ones below and precede it). -/
structure Args where
  source : PathT
  destination : PathT
  dry_run : Bool
  non_recursive : Bool
  keep_empty : Bool
  sort_mode : String

namespace Organizer

/-- The `main` function from `src/main.py` lines 271-293: fatal `SystemExit` (modelled as
`Except.error`, the filesystem returned untouched) when the source is
missing or not a directory, or equals the destination; otherwise one pass. -/
def main (args : Args) (fs : FS) : FS × Except String (Nat × Nat) :=
  let cfg : Config :=
    { source := args.source, destination := args.destination,
      dry_run := args.dry_run, recursive := !args.non_recursive,
      keep_empty := args.keep_empty, sort_mode := args.sort_mode }
  if !(existsP fs cfg.source) || !(isDirP fs cfg.source) then
    (fs, .error "Source folder does not exist or is not a directory")
  else if cfg.source = cfg.destination then
    (fs, .error "Source and destination cannot be the same folder.")
  else
    let r := organize_pass cfg fs
    (r.1, .ok (r.2.1, r.2.2))

end Organizer

/-- Fingerprint of the file at `p`, when it exists. -/
def digestOf (fs : FS) (p : PathT) : Option Content :=
  (lookupFile fs.files p).map (fun cm => sha256sum cm.1)

/-! Arithmetic facts about the decimal rendering used by collision suffixes. -/

theorem decFromChars_append_digit (cs : List Char) (c : Char) :
    decFromChars (cs ++ [c]) = decFromChars cs * 10 + (c.toNat - 48) := by
  simp [decFromChars, List.foldl_append]

theorem digitChar_val (d : Nat) (hd : d < 10) : (Nat.digitChar d).toNat - 48 = d := by
  interval_cases d <;> rfl

theorem natToDecAux_decode : ∀ fuel n, n ≤ fuel → decFromChars (natToDecAux fuel n) = n := by
  intro fuel
  induction fuel with
  | zero =>
    intro n hn
    interval_cases n
    rfl
  | succ fuel ih =>
    intro n hn
    by_cases h0 : n = 0
    · subst h0; rfl
    · have hdiv : n / 10 ≤ fuel := by omega
      simp only [natToDecAux, h0, if_false]
      rw [decFromChars_append_digit, ih _ hdiv, digitChar_val _ (Nat.mod_lt _ (by omega))]
      omega

theorem natToDec_decode (n : Nat) : decFromChars (natToDec n).data = n := by
  by_cases h0 : n = 0
  · subst h0; rfl
  · simp only [natToDec, h0, if_false]
    exact natToDecAux_decode n n le_rfl

theorem natToDec_data_inj {i j : Nat} (h : (natToDec i).data = (natToDec j).data) : i = j := by
  have := congrArg decFromChars h
  rwa [natToDec_decode, natToDec_decode] at this

/-! ## Theory of `safe_name` -/

theorem nthCandidate_inj (t : PathT) {i j : Nat} (h : nthCandidate t i = nthCandidate t j) :
    i = j := by
  unfold nthCandidate at h
  have h1 := List.append_cancel_left h
  have h2 : pathStem (pathName t) ++ " (" ++ natToDec i ++ ")" ++ pathSuffix (pathName t) =
      pathStem (pathName t) ++ " (" ++ natToDec j ++ ")" ++ pathSuffix (pathName t) := by
    simpa using h1
  have h3 := congrArg String.data h2
  simp only [String.data_append] at h3
  have h4 := List.append_cancel_right h3
  have h5 := List.append_cancel_right h4
  have h6 := List.append_cancel_left h5
  exact natToDec_data_inj h6

theorem existsP_iff_mem (fs : FS) (p : PathT) : existsP fs p = true ↔ p ∈ allPaths fs := by
  simp only [existsP, isFileP, isDirP, allPaths, Bool.or_eq_true, List.any_eq_true,
    decide_eq_true_eq, List.mem_append, List.mem_map]
  constructor
  · rintro (⟨e, he, rfl⟩ | ⟨d, hd, rfl⟩)
    · exact Or.inl ⟨e, he, rfl⟩
    · exact Or.inr hd
  · rintro (⟨e, he, rfl⟩ | hd)
    · exact Or.inl ⟨e, he, rfl⟩
    · exact Or.inr ⟨p, hd, rfl⟩

theorem free_index_exists (fs : FS) (t : PathT) :
    ∃ k, k < (allPaths fs).length + 1 ∧ existsP fs (nthCandidate t (1 + k)) = false := by
  by_contra hcon
  push_neg at hcon
  have hall : ∀ k, k < (allPaths fs).length + 1 → nthCandidate t (1 + k) ∈ allPaths fs := by
    intro k hk
    have := hcon k hk
    rw [← existsP_iff_mem]
    exact eq_true_of_ne_false this
  set N := (allPaths fs).length with hN
  have hinj : Set.InjOn (fun k : Fin (N + 1) => nthCandidate t (1 + k.1))
      ↑(Finset.univ : Finset (Fin (N + 1))) := by
    intro a _ b _ hab
    have := nthCandidate_inj t hab
    exact Fin.ext (by omega)
  have hmaps : ∀ a : Fin (N + 1), a ∈ (Finset.univ : Finset (Fin (N + 1))) →
      nthCandidate t (1 + a.1) ∈ (allPaths fs).toFinset := by
    intro a _
    rw [List.mem_toFinset]
    exact hall a.1 a.2
  have hcard := Finset.card_le_card_of_injOn _ hmaps hinj
  have h1 : (Finset.univ : Finset (Fin (N + 1))).card = N + 1 := by simp
  have h2 : ((allPaths fs).toFinset).card ≤ N := List.toFinset_card_le _
  omega

theorem safeNameAux_spec (fs : FS) (t : PathT) :
    ∀ fuel i, (∃ k, k < fuel ∧ existsP fs (nthCandidate t (i + k)) = false) →
      ∃ k, k < fuel ∧ safeNameAux fs t i fuel = nthCandidate t (i + k) ∧
        existsP fs (nthCandidate t (i + k)) = false ∧
        ∀ j, j < k → existsP fs (nthCandidate t (i + j)) = true := by
  intro fuel
  induction fuel with
  | zero => rintro i ⟨k, hk, -⟩; omega
  | succ fuel ih =>
    rintro i ⟨k, hk, hfree⟩
    by_cases hocc : existsP fs (nthCandidate t i) = true
    · have hk0 : k ≠ 0 := by
        rintro rfl
        rw [Nat.add_zero] at hfree
        rw [hocc] at hfree
        exact Bool.noConfusion hfree
      have hex' : ∃ k', k' < fuel ∧ existsP fs (nthCandidate t ((i + 1) + k')) = false := by
        refine ⟨k - 1, by omega, ?_⟩
        have : (i + 1) + (k - 1) = i + k := by omega
        rw [this]; exact hfree
      obtain ⟨k', hk', heq, hfree', hocc'⟩ := ih (i + 1) hex'
      refine ⟨k' + 1, by omega, ?_, ?_, ?_⟩
      · simp only [safeNameAux, hocc, if_true]
        rw [heq]
        congr 1
        omega
      · have : i + (k' + 1) = (i + 1) + k' := by omega
        rw [this]; exact hfree'
      · intro j hj
        cases j with
        | zero => simpa using hocc
        | succ j' =>
          have : i + (j' + 1) = (i + 1) + j' := by omega
          rw [this]
          exact hocc' j' (by omega)
    · refine ⟨0, by omega, ?_, ?_, ?_⟩
      · simp only [safeNameAux]
        rw [if_neg hocc, Nat.add_zero]
      · rw [Nat.add_zero]
        exact Bool.eq_false_iff.mpr (fun h => hocc h)
      · intro j hj; omega

/-- The fuel `safe_name` hands to the search loop always suffices: the loop
finds a free name and never hits the fuel-exhaustion fallback, so the
bounded loop equals the source's unbounded `while True`. -/
theorem safe_name_fuel_enough (fs : FS) (t : PathT) :
    ∃ n, 1 ≤ n ∧ safeNameAux fs t 1 ((allPaths fs).length + 1) = nthCandidate t n ∧
      existsP fs (nthCandidate t n) = false ∧
      ∀ m, 1 ≤ m → m < n → existsP fs (nthCandidate t m) = true := by
  obtain ⟨k, hk, hfree⟩ := free_index_exists fs t
  obtain ⟨k', hk', heq, hfree', hocc'⟩ :=
    safeNameAux_spec fs t ((allPaths fs).length + 1) 1 ⟨k, hk, hfree⟩
  refine ⟨1 + k', by omega, heq, hfree', ?_⟩
  intro m hm1 hm2
  have : m = 1 + (m - 1) := by omega
  rw [this]
  exact hocc' (m - 1) (by omega)

/-- Characterization of `safe_name`: an unoccupied target is returned as is;
an occupied one gets the first free ` (n)` suffix, `n ≥ 1` least. -/
theorem safe_name_spec (fs : FS) (t : PathT) :
    (existsP fs t = false → safe_name fs t = t) ∧
    (existsP fs t = true → ∃ n, 1 ≤ n ∧ safe_name fs t = nthCandidate t n ∧
      existsP fs (nthCandidate t n) = false ∧
      ∀ m, 1 ≤ m → m < n → existsP fs (nthCandidate t m) = true) := by
  constructor
  · intro hfree
    unfold safe_name
    rw [hfree]
    simp
  · intro hocc
    unfold safe_name
    rw [hocc]
    simpa using safe_name_fuel_enough fs t

/-- The path `safe_name` returns is always unoccupied, so a move can never
overwrite an existing file. -/
theorem safe_name_free (fs : FS) (t : PathT) : existsP fs (safe_name fs t) = false := by
  rcases h : existsP fs t with hf | ht
  · rw [(safe_name_spec fs t).1 h]; exact h
  · obtain ⟨n, -, heq, hfree, -⟩ := (safe_name_spec fs t).2 h
    rw [heq]; exact hfree

/-- Parent directories survive `safe_name`: only the final name changes. -/
theorem safe_name_dropLast (fs : FS) (t : PathT) :
    (safe_name fs t).dropLast = t.dropLast ∨ safe_name fs t = t := by
  rcases h : existsP fs t with hf | ht
  · exact Or.inr ((safe_name_spec fs t).1 h)
  · obtain ⟨n, -, heq, -, -⟩ := (safe_name_spec fs t).2 h
    left
    rw [heq]
    unfold nthCandidate
    rw [List.dropLast_concat]

/-! ## Supporting lemmas: lookups, renames, state preservation -/

theorem lookupFile_eq_none_iff (files : List (PathT × Content × Mtime)) (p : PathT) :
    lookupFile files p = none ↔ ∀ e ∈ files, e.1 ≠ p := by
  simp [lookupFile, List.find?_eq_none]

theorem isFileP_of_lookup {fs : FS} {p : PathT} {cm : Content × Mtime}
    (h : lookupFile fs.files p = some cm) : isFileP fs p = true := by
  simp only [lookupFile, Option.map_eq_some'] at h
  obtain ⟨e, he, -⟩ := h
  have hmem := List.mem_of_find?_eq_some he
  have hp := List.find?_some he
  simp only [decide_eq_true_eq] at hp
  simp only [isFileP, List.any_eq_true, decide_eq_true_eq]
  exact ⟨e, hmem, hp⟩

theorem existsP_of_mem_files {fs : FS} {e : PathT × Content × Mtime}
    (h : e ∈ fs.files) : existsP fs e.1 = true := by
  simp only [existsP, isFileP, Bool.or_eq_true, List.any_eq_true, decide_eq_true_eq]
  exact Or.inl ⟨e, h, rfl⟩

theorem lookupFile_rename_self (files : List (PathT × Content × Mtime)) (src d : PathT)
    (hfresh : ∀ e ∈ files, e.1 ≠ d) :
    lookupFile (renameFile files src d) d = lookupFile files src := by
  induction files with
  | nil => rfl
  | cons e es ih =>
    have hd : e.1 ≠ d := hfresh e (List.mem_cons_self e es)
    have ih' := ih (fun x hx => hfresh x (List.mem_cons_of_mem e hx))
    by_cases hsrc : e.1 = src
    · simp only [renameFile, List.map_cons, if_pos hsrc]
      unfold lookupFile
      rw [List.find?_cons_of_pos _ (by simp), List.find?_cons_of_pos _ (by simp [hsrc])]
      rfl
    · simp only [renameFile, List.map_cons, if_neg hsrc]
      unfold lookupFile
      rw [List.find?_cons_of_neg _ (by simp [hd]), List.find?_cons_of_neg _ (by simp [hsrc])]
      exact ih'

theorem lookupFile_rename_other (files : List (PathT × Content × Mtime)) (src d q : PathT)
    (hq1 : q ≠ src) (hq2 : q ≠ d) :
    lookupFile (renameFile files src d) q = lookupFile files q := by
  induction files with
  | nil => rfl
  | cons e es ih =>
    by_cases hsrc : e.1 = src
    · simp only [renameFile, List.map_cons, if_pos hsrc]
      unfold lookupFile
      rw [List.find?_cons_of_neg _ (by simp; exact fun h => hq2 h.symm),
        List.find?_cons_of_neg _ (by simp; exact fun h => hq1 (hsrc ▸ h.symm))]
      exact ih
    · simp only [renameFile, List.map_cons, if_neg hsrc]
      unfold lookupFile
      by_cases he : e.1 = q
      · rw [List.find?_cons_of_pos _ (by simp [he]), List.find?_cons_of_pos _ (by simp [he])]
      · rw [List.find?_cons_of_neg _ (by simp [he]), List.find?_cons_of_neg _ (by simp [he])]
        exact ih

theorem renameFile_mem {files : List (PathT × Content × Mtime)} {src d : PathT}
    {e : PathT × Content × Mtime} (h : e ∈ renameFile files src d) :
    e.1 = d ∨ (e ∈ files ∧ e.1 ≠ src) := by
  simp only [renameFile, List.mem_map] at h
  obtain ⟨e0, he0, heq⟩ := h
  by_cases hsrc : e0.1 = src
  · rw [if_pos hsrc] at heq
    left; rw [← heq]
  · rw [if_neg hsrc] at heq
    right; rw [← heq]; exact ⟨he0, hsrc⟩

theorem mkdirP_files (fs : FS) (p : PathT) : (mkdirP fs p).files = fs.files := rfl

theorem mkdirP_savedIndex (fs : FS) (p : PathT) : (mkdirP fs p).savedIndex = fs.savedIndex := rfl

theorem save_index_files (fs : FS) (idx : Index) (dry : Bool) :
    (save_index fs idx dry).files = fs.files := by
  unfold save_index; split <;> rfl

theorem prune_files (fs : FS) (root : PathT) (keep : Bool) :
    (prune_empty_dirs fs root keep).files = fs.files := by
  unfold prune_empty_dirs
  split
  · rfl
  · generalize sortByDepthDesc _ = ds
    induction ds generalizing fs with
    | nil => rfl
    | cons d ds ih =>
      simp only [List.foldl_cons]
      rw [ih]
      split <;> rfl

theorem prune_savedIndex (fs : FS) (root : PathT) (keep : Bool) :
    (prune_empty_dirs fs root keep).savedIndex = fs.savedIndex := by
  unfold prune_empty_dirs
  split
  · rfl
  · generalize sortByDepthDesc _ = ds
    induction ds generalizing fs with
    | nil => rfl
    | cons d ds ih =>
      simp only [List.foldl_cons]
      rw [ih]
      split <;> rfl

theorem indexGet_set_ne (idx : Index) (k v : _) (k' : Content) (hne : k' ≠ k) :
    indexGet (indexSet idx k v) k' = indexGet idx k' := by
  unfold indexSet
  split
  · rename_i hany
    clear hany
    induction idx with
    | nil => rfl
    | cons e es ih =>
      by_cases hek : e.1 = k
      · simp only [List.map_cons, if_pos hek]
        unfold indexGet
        rw [List.find?_cons_of_neg _ (by simp; exact fun h => hne h.symm),
          List.find?_cons_of_neg _ (by simp; exact fun h => hne (hek ▸ h.symm))]
        exact ih
      · simp only [List.map_cons, if_neg hek]
        unfold indexGet
        by_cases hk' : e.1 = k'
        · rw [List.find?_cons_of_pos _ (by simp [hk']), List.find?_cons_of_pos _ (by simp [hk'])]
        · rw [List.find?_cons_of_neg _ (by simp [hk']), List.find?_cons_of_neg _ (by simp [hk'])]
          exact ih
  · rename_i hany
    clear hany
    induction idx with
    | nil =>
      unfold indexGet
      rw [List.nil_append, List.find?_cons_of_neg _ (by simp; exact fun h => hne h.symm)]
    | cons e es ih =>
      unfold indexGet
      rw [List.cons_append]
      by_cases hk' : e.1 = k'
      · rw [List.find?_cons_of_pos _ (by simp [hk']), List.find?_cons_of_pos _ (by simp [hk'])]
      · rw [List.find?_cons_of_neg _ (by simp [hk']), List.find?_cons_of_neg _ (by simp [hk'])]
        exact ih

/-! ## `move_file` and `organize_file` characterization -/

theorem move_file_snd (fs : FS) (src dst : PathT) (dry : Bool) :
    (move_file fs src dst dry).2 = safe_name fs dst := by
  unfold move_file
  split <;> rfl

theorem move_file_dry (fs : FS) (src dst : PathT) :
    (move_file fs src dst true).1 = fs := rfl

theorem move_file_real_files (fs : FS) (src dst : PathT) :
    (move_file fs src dst false).1.files = renameFile fs.files src (safe_name fs dst) := rfl

theorem move_file_lookup {fs : FS} {src : PathT} {cm : Content × Mtime} (dst : PathT)
    (hfile : lookupFile fs.files src = some cm) :
    lookupFile (move_file fs src dst false).1.files (move_file fs src dst false).2 = some cm := by
  rw [move_file_real_files, move_file_snd]
  rw [lookupFile_rename_self]
  · exact hfile
  · intro e he heq
    have h1 := existsP_of_mem_files he
    rw [heq] at h1
    rw [safe_name_free fs dst] at h1
    exact Bool.noConfusion h1

theorem safe_name_keeps_dest (fs : FS) (dest : PathT) (a b c : String) :
    dest <+: safe_name fs (dest ++ [a, b, c]) := by
  have hsplit : dest ++ [a, b, c] = (dest ++ [a, b]) ++ [c] := by simp
  rcases safe_name_dropLast fs (dest ++ [a, b, c]) with hdl | heq
  · have h1 : (dest ++ [a, b, c]).dropLast = dest ++ [a, b] := by
      rw [hsplit, List.dropLast_concat]
    have h2 : dest <+: (safe_name fs (dest ++ [a, b, c])).dropLast := by
      rw [hdl, h1]; exact List.prefix_append dest [a, b]
    exact h2.trans ( List.dropLast_prefix _)
  · rw [heq]; exact List.prefix_append dest [a, b, c]

theorem organize_file_eq_dup {fs : FS} {cfg : Config} {idx : Index} {path : PathT}
    {c : Content} {mt : Mtime} {kp : PathT}
    (hfile : lookupFile fs.files path = some (c, mt))
    (hidx : indexGet idx (sha256sum c) = some kp)
    (hex : existsP fs kp = true) (hne : kp ≠ path) :
    organize_file fs cfg idx path =
      some ("duplicate",
        (move_file fs path (cfg.destination ++
          ["duplicates",
           if cfg.sort_mode = "source" then source_bucket path else month_bucket mt,
           pathName path]) cfg.dry_run).2,
        (move_file fs path (cfg.destination ++
          ["duplicates",
           if cfg.sort_mode = "source" then source_bucket path else month_bucket mt,
           pathName path]) cfg.dry_run).1,
        idx) := by
  unfold organize_file
  rw [hfile]
  simp only [hidx, hex, hne, decide_eq_true_eq]
  simp [hne]

theorem organize_file_eq_moved {fs : FS} {cfg : Config} {idx : Index} {path : PathT}
    {c : Content} {mt : Mtime}
    (hfile : lookupFile fs.files path = some (c, mt))
    (hstale : ∀ kp, indexGet idx (sha256sum c) = some kp → existsP fs kp = false ∨ kp = path) :
    organize_file fs cfg idx path =
      some ("moved",
        (move_file fs path (cfg.destination ++
          [classify_file path,
           if cfg.sort_mode = "source" then source_bucket path else month_bucket mt,
           pathName path]) cfg.dry_run).2,
        (move_file fs path (cfg.destination ++
          [classify_file path,
           if cfg.sort_mode = "source" then source_bucket path else month_bucket mt,
           pathName path]) cfg.dry_run).1,
        indexSet idx (sha256sum c)
          (move_file fs path (cfg.destination ++
            [classify_file path,
             if cfg.sort_mode = "source" then source_bucket path else month_bucket mt,
             pathName path]) cfg.dry_run).2) := by
  unfold organize_file
  rw [hfile]
  have hdup : (match indexGet idx (sha256sum c) with
      | some known_path => existsP fs known_path && !(decide (known_path = path))
      | none => false) = false := by
    cases hidx : indexGet idx (sha256sum c) with
    | none => rfl
    | some kp =>
      rcases hstale kp hidx with hex | hkp
      · simp [hex]
      · simp [hkp]
  simp only [hdup]
  simp

/-! ## Claim theorems -/

/-- C1: for every candidate file processed by `organize_file` (an existing
file at `path` with content `c` and mtime `mt`): when the index has an entry
for the file's fingerprint whose canonical path still exists and resolves
differently from the candidate, the result is `duplicate`, the file is moved
to `destination/duplicates/bucket/filename` (collision-resolved;
in real mode the file afterwards sits at that final path), and the index is
returned unchanged; in every other case (no entry, stale entry, or entry
resolving to the candidate itself) the result is `moved`, the file is moved
to `destination/category/bucket/filename` after collision resolution, and
the index entry for the fingerprint is set to the final path. -/
theorem organize_file_dedup_contract (fs : FS) (cfg : Config) (idx : Index) (path : PathT)
    (c : Content) (mt : Mtime) (bucket : String)
    (hfile : lookupFile fs.files path = some (c, mt))
    (hbucket : bucket = if cfg.sort_mode = "source" then source_bucket path else month_bucket mt) :
    (∀ kp, indexGet idx (sha256sum c) = some kp → existsP fs kp = true → kp ≠ path →
      ∃ fs', organize_file fs cfg idx path =
          some ("duplicate",
            safe_name fs (cfg.destination ++ ["duplicates", bucket, pathName path]), fs', idx) ∧
        (cfg.dry_run = true → fs' = fs) ∧
        (cfg.dry_run = false →
          lookupFile fs'.files
            (safe_name fs (cfg.destination ++ ["duplicates", bucket, pathName path])) =
            some (c, mt))) ∧
    ((∀ kp, indexGet idx (sha256sum c) = some kp → existsP fs kp = false ∨ kp = path) →
      ∃ fs', organize_file fs cfg idx path =
          some ("moved",
            safe_name fs (cfg.destination ++ [classify_file path, bucket, pathName path]), fs',
            indexSet idx (sha256sum c)
              (safe_name fs (cfg.destination ++ [classify_file path, bucket, pathName path]))) ∧
        (cfg.dry_run = true → fs' = fs) ∧
        (cfg.dry_run = false →
          lookupFile fs'.files
            (safe_name fs (cfg.destination ++ [classify_file path, bucket, pathName path])) =
            some (c, mt))) := by
  subst hbucket
  constructor
  · intro kp hidx hex hne
    refine ⟨(move_file fs path (cfg.destination ++
        ["duplicates",
         if cfg.sort_mode = "source" then source_bucket path else month_bucket mt,
         pathName path]) cfg.dry_run).1, ?_, ?_, ?_⟩
    · rw [organize_file_eq_dup hfile hidx hex hne, move_file_snd]
    · intro hdry; rw [hdry, move_file_dry]
    · intro hreal
      rw [hreal]
      rw [← move_file_snd fs path _ false]
      exact move_file_lookup _ hfile
  · intro hstale
    refine ⟨(move_file fs path (cfg.destination ++
        [classify_file path,
         if cfg.sort_mode = "source" then source_bucket path else month_bucket mt,
         pathName path]) cfg.dry_run).1, ?_, ?_, ?_⟩
    · rw [organize_file_eq_moved hfile hstale, move_file_snd]
    · intro hdry; rw [hdry, move_file_dry]
    · intro hreal
      rw [hreal]
      rw [← move_file_snd fs path _ false]
      exact move_file_lookup _ hfile

/-- Witness for C1: a concrete duplicate (an indexed canonical copy exists
elsewhere) and a concrete fresh file, instantiating both branches. -/
theorem organize_file_dedup_contract_witness :
    (∃ fs', organize_file
        ⟨[(["src", "a.txt"], [1], (2024, 5)), (["old", "orig.txt"], [1], (2024, 4))],
         [["src"], ["old"]], none⟩
        ⟨["src"], ["dst"], false, true, true, "date"⟩
        [([1], ["old", "orig.txt"])] ["src", "a.txt"] =
        some ("duplicate",
          safe_name
            ⟨[(["src", "a.txt"], [1], (2024, 5)), (["old", "orig.txt"], [1], (2024, 4))],
             [["src"], ["old"]], none⟩
            (["dst"] ++ ["duplicates", "2024-05", "a.txt"]), fs',
          [([1], ["old", "orig.txt"])]) ∧
      (false = true → fs' =
        ⟨[(["src", "a.txt"], [1], (2024, 5)), (["old", "orig.txt"], [1], (2024, 4))],
         [["src"], ["old"]], none⟩) ∧
      (false = false →
        lookupFile fs'.files
          (safe_name
            ⟨[(["src", "a.txt"], [1], (2024, 5)), (["old", "orig.txt"], [1], (2024, 4))],
             [["src"], ["old"]], none⟩
            (["dst"] ++ ["duplicates", "2024-05", "a.txt"])) = some ([1], (2024, 5)))) :=
  (organize_file_dedup_contract
    ⟨[(["src", "a.txt"], [1], (2024, 5)), (["old", "orig.txt"], [1], (2024, 4))],
     [["src"], ["old"]], none⟩
    ⟨["src"], ["dst"], false, true, true, "date"⟩
    [([1], ["old", "orig.txt"])] ["src", "a.txt"] [1] (2024, 5) "2024-05"
    (by decide) (by decide)).1
    ["old", "orig.txt"] (by decide) (by decide) (by decide)

/-- C6: collision resolution returns the target itself when nothing exists
there, and otherwise the target with ` (n)` appended before the extension
for the smallest `n ≥ 1` whose name is free; the chosen name is always
unoccupied, so files never overwrite each other, and with the base name and
` (1)` taken the next file receives ` (2)`. -/
theorem safe_name_collision_contract (fs : FS) (t : PathT) :
    (existsP fs t = false → safe_name fs t = t) ∧
    (existsP fs t = true →
      ∃ n, 1 ≤ n ∧ safe_name fs t = nthCandidate t n ∧
        existsP fs (nthCandidate t n) = false ∧
        ∀ m, 1 ≤ m → m < n → existsP fs (nthCandidate t m) = true) ∧
    existsP fs (safe_name fs t) = false ∧
    (existsP fs t = true → existsP fs (nthCandidate t 1) = false →
      safe_name fs t = nthCandidate t 1) ∧
    (existsP fs t = true → existsP fs (nthCandidate t 1) = true →
      existsP fs (nthCandidate t 2) = false → safe_name fs t = nthCandidate t 2) := by
  refine ⟨(safe_name_spec fs t).1, (safe_name_spec fs t).2, safe_name_free fs t, ?_, ?_⟩
  · intro hocc hfree1
    obtain ⟨n, hn1, heq, hfree, hmin⟩ := (safe_name_spec fs t).2 hocc
    have hn : n = 1 := by
      by_contra hne
      have := hmin 1 le_rfl (by omega)
      rw [hfree1] at this
      exact Bool.noConfusion this
    rw [heq, hn]
  · intro hocc hocc1 hfree2
    obtain ⟨n, hn1, heq, hfree, hmin⟩ := (safe_name_spec fs t).2 hocc
    have hn : n = 2 := by
      rcases Nat.lt_or_ge n 2 with h2 | h2
      · have : n = 1 := by omega
        rw [this] at hfree
        rw [hocc1] at hfree
        exact Bool.noConfusion hfree
      · by_contra hne
        have := hmin 2 (by omega) (by omega)
        rw [hfree2] at this
        exact Bool.noConfusion this
    rw [heq, hn]

/-- Witness for C6: with `a.txt` and `a (1).txt` both present, the free
target is returned unchanged and the occupied one resolves to `a (2).txt`. -/
theorem safe_name_collision_contract_witness :
    (existsP ⟨[(["d", "a.txt"], [1], (2024, 1)), (["d", "a (1).txt"], [2], (2024, 1))],
        [["d"]], none⟩ ["d", "b.txt"] = false →
      safe_name ⟨[(["d", "a.txt"], [1], (2024, 1)), (["d", "a (1).txt"], [2], (2024, 1))],
        [["d"]], none⟩ ["d", "b.txt"] = ["d", "b.txt"]) ∧
    (safe_name ⟨[(["d", "a.txt"], [1], (2024, 1)), (["d", "a (1).txt"], [2], (2024, 1))],
        [["d"]], none⟩ ["d", "b.txt"] = ["d", "b.txt"]) ∧
    (safe_name ⟨[(["d", "a.txt"], [1], (2024, 1)), (["d", "a (1).txt"], [2], (2024, 1))],
        [["d"]], none⟩ ["d", "a.txt"] = nthCandidate ["d", "a.txt"] 2) ∧
    nthCandidate ["d", "a.txt"] 2 = ["d", "a (2).txt"] := by
  refine ⟨(safe_name_collision_contract _ _).1, ?_, ?_, by decide⟩
  · exact (safe_name_collision_contract
      ⟨[(["d", "a.txt"], [1], (2024, 1)), (["d", "a (1).txt"], [2], (2024, 1))],
        [["d"]], none⟩ ["d", "b.txt"]).1 (by decide)
  · exact (safe_name_collision_contract
      ⟨[(["d", "a.txt"], [1], (2024, 1)), (["d", "a (1).txt"], [2], (2024, 1))],
        [["d"]], none⟩ ["d", "a.txt"]).2.2.2.2 (by decide) (by decide) (by decide)

/-- C4 counterexample: `downloads/chrome/setup.bin` has `chrome` in its
parent path only; the claim demands bucket `browser_downloads`, but
`source_bucket` tests only the filename in rule 5 and falls through to
`manual_or_unknown`. -/
theorem source_bucket_parent_match_counterexample :
    strContains (strLower (joinPath ((["downloads", "chrome", "setup.bin"] : PathT).dropLast)))
      "chrome" = true ∧
    source_bucket ["downloads", "chrome", "setup.bin"] = "manual_or_unknown" ∧
    "manual_or_unknown" ≠ "browser_downloads" := by
  exact ⟨by decide, by decide, by decide⟩

/-- C4 (amended): rules 5 (`browser_downloads`) and 7 (`meetings`) of
`source_bucket` match on the lowercased *filename only* - a substring match
in the parent path alone does not trigger them.  When no earlier rule
applies: a filename containing `chrome`/`edge`/`firefox` gets
`browser_downloads`, and otherwise (rule 6's extensions also excluded) a
filename containing `zoom`/`meeting`/`teams` gets `meetings`. -/
theorem source_bucket_name_only_rules (path : PathT)
    (h1 : strContains (strLower (pathName path)) "whatsapp" = false)
    (h2 : strContains (strLower (joinPath path.dropLast)) "whatsapp" = false)
    (h3 : strContains (strLower (pathName path)) "telegram" = false)
    (h4 : strContains (strLower (joinPath path.dropLast)) "telegram" = false)
    (h5 : strContains (strLower (pathName path)) "discord" = false)
    (h6 : strContains (strLower (joinPath path.dropLast)) "discord" = false)
    (h7 : strContains (strLower (pathName path)) "slack" = false)
    (h8 : strContains (strLower (joinPath path.dropLast)) "slack" = false)
    (h9 : strStartsWith (strLower (pathName path)) "screenshot" = false)
    (h10 : strContains (strLower (pathName path)) "screen shot" = false)
    (h11 : strStartsWith (strLower (pathName path)) "snip" = false)
    (h12 : strStartsWith (strLower (pathName path)) "img_" = false)
    (h13 : strStartsWith (strLower (pathName path)) "dsc_" = false)
    (h14 : strStartsWith (strLower (pathName path)) "pxl_" = false) :
    ((strContains (strLower (pathName path)) "chrome" ||
      strContains (strLower (pathName path)) "edge" ||
      strContains (strLower (pathName path)) "firefox") = true →
        source_bucket path = "browser_downloads") ∧
    (strContains (strLower (pathName path)) "chrome" = false →
      strContains (strLower (pathName path)) "edge" = false →
      strContains (strLower (pathName path)) "firefox" = false →
      strLower (pathSuffix (pathName path)) ≠ ".crdownload" →
      strLower (pathSuffix (pathName path)) ≠ ".part" →
      (strContains (strLower (pathName path)) "zoom" ||
       strContains (strLower (pathName path)) "meeting" ||
       strContains (strLower (pathName path)) "teams") = true →
        source_bucket path = "meetings") := by
  constructor
  · intro hA
    simp [source_bucket, h1, h2, h3, h4, h5, h6, h7, h8, h9, h10, h11, h12, h13, h14, hA]
  · intro hc he hf hcr hp hz
    simp [source_bucket, h1, h2, h3, h4, h5, h6, h7, h8, h9, h10, h11, h12, h13, h14,
      hc, he, hf, hcr, hp, hz]

/-- Witness for the amended C4: a filename match gives `browser_downloads`,
and with the browser rules excluded a filename match gives `meetings`. -/
theorem source_bucket_name_only_rules_witness :
    source_bucket ["downloads", "chrome_setup.exe"] = "browser_downloads" ∧
    source_bucket ["calls", "zoom_recording.mp4"] = "meetings" := by
  constructor
  · exact (source_bucket_name_only_rules ["downloads", "chrome_setup.exe"]
      (by decide) (by decide) (by decide) (by decide) (by decide) (by decide) (by decide)
      (by decide) (by decide) (by decide) (by decide) (by decide) (by decide) (by decide)).1
      (by decide)
  · exact (source_bucket_name_only_rules ["calls", "zoom_recording.mp4"]
      (by decide) (by decide) (by decide) (by decide) (by decide) (by decide) (by decide)
      (by decide) (by decide) (by decide) (by decide) (by decide) (by decide) (by decide)).2
      (by decide) (by decide) (by decide) (by decide) (by decide) (by decide)

/-- C8: loading the index returns the empty index - not an error - when the
index file is missing or its content fails to parse as JSON; these kinds of
corruption are never fatal (the function is total). -/
theorem load_index_missing_or_corrupt :
    load_index none = JsonValue.obj [] ∧ load_index (some none) = JsonValue.obj [] :=
  ⟨rfl, rfl⟩

/-- C10: an index file whose content parses as valid JSON that is not a JSON
object (an array, a number, ...) is returned by `load_index` unchanged
rather than replaced by an empty index. -/
theorem load_index_non_object_passthrough :
    (∀ v : JsonValue, load_index (some (some v)) = v) ∧
    load_index (some (some (JsonValue.arr []))) ≠ JsonValue.obj [] ∧
    load_index (some (some (JsonValue.num 3))) ≠ JsonValue.obj [] := by
  refine ⟨fun v => rfl, fun h => ?_, fun h => ?_⟩
  · exact JsonValue.noConfusion h
  · exact JsonValue.noConfusion h

theorem organize_loop_go (results : List (Except String String)) :
    ∀ m d e : Nat,
      results.foldl
        (fun acc r =>
          match r with
          | .ok status =>
            if status = "duplicate" then (acc.1, acc.2.1 + 1, acc.2.2)
            else (acc.1 + 1, acc.2.1, acc.2.2)
          | .error _ => (acc.1, acc.2.1, acc.2.2 + 1))
        (m, d, e) =
      (m + results.countP (fun r => match r with
          | Except.ok s => !(decide (s = "duplicate"))
          | Except.error _ => false),
       d + results.countP (fun r => match r with
          | Except.ok s => decide (s = "duplicate")
          | Except.error _ => false),
       e + results.countP (fun r => match r with
          | Except.ok _ => false
          | Except.error _ => true)) := by
  induction results with
  | nil => intro m d e; simp
  | cons r rs ih =>
    intro m d e
    cases r with
    | ok s =>
      by_cases hs : s = "duplicate"
      · subst hs
        simp only [List.foldl_cons, if_pos rfl, ih, List.countP_cons]
        simp
        omega
      · simp only [List.foldl_cons, if_neg hs, ih, List.countP_cons]
        simp [hs]
        omega
    | error msg =>
      simp only [List.foldl_cons, ih, List.countP_cons]
      simp
      omega

/-- C7: the candidate loop of `organize_pass` processes every entry of the
candidate list - an error result consumes no count and never aborts the
remaining entries - and the returned moved/duplicate counts are exactly the
number of successfully processed files of each status (errors are tallied
separately). -/
theorem organize_loop_counts (results : List (Except String String)) :
    organize_loop results =
      (results.countP (fun r => match r with
          | Except.ok s => !(decide (s = "duplicate"))
          | Except.error _ => false),
       results.countP (fun r => match r with
          | Except.ok s => decide (s = "duplicate")
          | Except.error _ => false),
       results.countP (fun r => match r with
          | Except.ok _ => false
          | Except.error _ => true)) := by
  unfold organize_loop
  rw [organize_loop_go]
  simp

/-- C9: when the resolved source does not exist, is not a directory, or
equals the resolved destination, `main` terminates with a fatal error
message and the filesystem is returned untouched - no scanning, index
loading or mutation has happened. -/
theorem main_fatal_config (args : Args) (fs : FS)
    (h : existsP fs args.source = false ∨ isDirP fs args.source = false ∨
      args.source = args.destination) :
    (Organizer.main args fs).1 = fs ∧
    ∃ msg, (Organizer.main args fs).2 = Except.error msg := by
  unfold Organizer.main
  rcases h with h | h | h
  · simp [h]
  · simp [h]
  · by_cases hb : (!(existsP fs args.source) || !(isDirP fs args.source)) = true
    · simp [hb]
    · rw [Bool.not_eq_true] at hb
      simp [hb, h]
      split <;> exact ⟨rfl, _, rfl⟩

/-- Witness for C9: a missing source folder is rejected fatally with the
state unchanged. -/
theorem main_fatal_config_witness :
    (Organizer.main ⟨["s"], ["d"], false, false, false, "date"⟩ ⟨[], [], none⟩).1 =
      ⟨[], [], none⟩ ∧
    ∃ msg, (Organizer.main ⟨["s"], ["d"], false, false, false, "date"⟩ ⟨[], [], none⟩).2 =
      Except.error msg :=
  main_fatal_config ⟨["s"], ["d"], false, false, false, "date"⟩ ⟨[], [], none⟩
    (Or.inl (by decide))

/-! ## Dry-run behaviour of the pass -/

theorem save_index_dry (fs : FS) (idx : Index) : save_index fs idx true = fs := rfl

theorem organize_file_dry_fs {fs : FS} {cfg : Config} {idx : Index} {path : PathT}
    {s : String} {f : PathT} {fs' : FS} {idx' : Index} (hdry : cfg.dry_run = true)
    (h : organize_file fs cfg idx path = some (s, f, fs', idx')) : fs' = fs := by
  cases hl : lookupFile fs.files path with
  | none =>
    unfold organize_file at h
    rw [hl] at h
    exact absurd h (by simp)
  | some cm =>
    obtain ⟨c, mt⟩ := cm
    have moved_case :
        (∀ kp, indexGet idx (sha256sum c) = some kp → existsP fs kp = false ∨ kp = path) →
        fs' = fs := by
      intro hstale
      rw [organize_file_eq_moved hl hstale] at h
      simp only [Option.some.injEq, Prod.mk.injEq] at h
      rw [← h.2.2.1, hdry, move_file_dry]
    cases hig : indexGet idx (sha256sum c) with
    | none =>
      exact moved_case (fun kp hkp => by rw [hig] at hkp; exact absurd hkp (by simp))
    | some kp =>
      by_cases hex : existsP fs kp = true
      · by_cases hkp : kp = path
        · exact moved_case (fun kp' hkp' => by
            rw [hig] at hkp'
            exact Or.inr (hkp ▸ (Option.some.inj hkp').symm ▸ rfl))
        · rw [organize_file_eq_dup hl hig hex hkp] at h
          simp only [Option.some.injEq, Prod.mk.injEq] at h
          rw [← h.2.2.1, hdry, move_file_dry]
      · exact moved_case (fun kp' hkp' => by
          rw [hig] at hkp'
          rw [← Option.some.inj hkp']
          exact Or.inl (Bool.eq_false_iff.mpr hex))

theorem processOne_dry {cfg : Config} (hdry : cfg.dry_run = true)
    (st : FS × Index × Nat × Nat) (p : PathT) : (processOne cfg st p).1 = st.1 := by
  unfold processOne
  cases ho : organize_file st.1 cfg st.2.1 p with
  | none => rfl
  | some r =>
    obtain ⟨s, f, fs', idx'⟩ := r
    have hfs := organize_file_dry_fs hdry ho
    subst hfs
    split
    · rename_i status fst fs2 idx2 heq
      simp only [Option.some.injEq, Prod.mk.injEq] at heq
      rw [← heq.2.2.1]
      split <;> rfl
    · rfl

theorem foldl_processOne_dry {cfg : Config} (hdry : cfg.dry_run = true) :
    ∀ (cands : List PathT) (st : FS × Index × Nat × Nat),
      (cands.foldl (processOne cfg) st).1 = st.1 := by
  intro cands
  induction cands with
  | nil => intro st; rfl
  | cons c cs ih =>
    intro st
    rw [List.foldl_cons, ih, processOne_dry hdry]

/-- C3 counterexample: a dry-run pass is not mutation-free.  With an absent
destination and an empty directory under the source (and `keepEmpty`
false), the dry-run pass creates the destination directory
(`mkdir` runs before any dry-run check) and prunes the empty source
directory, so the directory tree differs afterwards. -/
theorem organize_pass_dry_run_mutates_counterexample :
    (organize_pass ⟨["src"], ["dst"], true, true, false, "date"⟩
        ⟨[], [["src"], ["src", "empty"]], none⟩).1.dirs = [["src"], ["dst"]] ∧
    (⟨[], [["src"], ["src", "empty"]], none⟩ : FS).dirs = [["src"], ["src", "empty"]] ∧
    ([["src"], ["dst"]] : List PathT) ≠ [["src"], ["src", "empty"]] :=
  ⟨by decide, by decide, by decide⟩

/-- C3 (amended): a dry-run pass moves no file and writes no index - the
file entries and the persisted index content are exactly those of the
initial state - but it is not entirely mutation-free: it still creates the
destination directory and, unless `keepEmpty` is set, removes empty
directories from the source tree (both actions run unconditionally in
`organize_pass`). -/
theorem organize_pass_dry_run_frame (cfg : Config) (fs : FS) (hdry : cfg.dry_run = true) :
    (organize_pass cfg fs).1.files = fs.files ∧
    (organize_pass cfg fs).1.savedIndex = fs.savedIndex := by
  unfold organize_pass
  constructor
  · rw [prune_files, hdry, save_index_dry, foldl_processOne_dry hdry, mkdirP_files]
  · rw [prune_savedIndex, hdry, save_index_dry, foldl_processOne_dry hdry, mkdirP_savedIndex]

/-- Witness for the amended C3 at a concrete dry-run configuration. -/
theorem organize_pass_dry_run_frame_witness :
    (organize_pass ⟨["src"], ["dst"], true, true, false, "date"⟩
        ⟨[(["src", "a.txt"], [1], (2024, 5))], [["src"]], none⟩).1.files =
      [(["src", "a.txt"], [1], (2024, 5))] ∧
    (organize_pass ⟨["src"], ["dst"], true, true, false, "date"⟩
        ⟨[(["src", "a.txt"], [1], (2024, 5))], [["src"]], none⟩).1.savedIndex = none :=
  organize_pass_dry_run_frame ⟨["src"], ["dst"], true, true, false, "date"⟩
    ⟨[(["src", "a.txt"], [1], (2024, 5))], [["src"]], none⟩ rfl

/-! ## Same-pass duplicates: dry-run versus real counts -/

theorem lookup_of_isFileP {fs : FS} {p : PathT} (h : isFileP fs p = true) :
    ∃ cm, lookupFile fs.files p = some cm := by
  simp only [isFileP, List.any_eq_true, decide_eq_true_eq] at h
  obtain ⟨e, he, hp⟩ := h
  have : (fs.files.find? (fun e' => decide (e'.1 = p))).isSome :=
    List.find?_isSome.mpr ⟨e, he, by simp [hp]⟩
  obtain ⟨e', he'⟩ := Option.isSome_iff_exists.mp this
  exact ⟨e'.2, by simp [lookupFile, he']⟩

theorem organize_file_fs_shape {fs : FS} {cfg : Config} {idx : Index} {path : PathT}
    {s : String} {f : PathT} {fs' : FS} {idx' : Index}
    (h : organize_file fs cfg idx path = some (s, f, fs', idx')) :
    ∃ T, fs' = (move_file fs path T cfg.dry_run).1 := by
  cases hl : lookupFile fs.files path with
  | none =>
    unfold organize_file at h
    rw [hl] at h
    exact absurd h (by simp)
  | some cm =>
    obtain ⟨c, mt⟩ := cm
    have moved_case :
        (∀ kp, indexGet idx (sha256sum c) = some kp → existsP fs kp = false ∨ kp = path) →
        ∃ T, fs' = (move_file fs path T cfg.dry_run).1 := by
      intro hstale
      rw [organize_file_eq_moved hl hstale] at h
      simp only [Option.some.injEq, Prod.mk.injEq] at h
      exact ⟨_, h.2.2.1.symm⟩
    cases hig : indexGet idx (sha256sum c) with
    | none =>
      exact moved_case (fun kp hkp => by rw [hig] at hkp; exact absurd hkp (by simp))
    | some kp =>
      by_cases hex : existsP fs kp = true
      · by_cases hkp : kp = path
        · exact moved_case (fun kp' hkp' => by
            rw [hig] at hkp'
            exact Or.inr (hkp ▸ (Option.some.inj hkp').symm ▸ rfl))
        · rw [organize_file_eq_dup hl hig hex hkp] at h
          simp only [Option.some.injEq, Prod.mk.injEq] at h
          exact ⟨_, h.2.2.1.symm⟩
      · exact moved_case (fun kp' hkp' => by
          rw [hig] at hkp'
          rw [← Option.some.inj hkp']
          exact Or.inl (Bool.eq_false_iff.mpr hex))

theorem move_file_preserves_lookup {fs : FS} {p q : PathT} (T : PathT) (dry : Bool)
    (hq : q ≠ p) (hqex : isFileP fs q = true) :
    lookupFile (move_file fs p T dry).1.files q = lookupFile fs.files q := by
  unfold move_file
  split
  · rfl
  · show lookupFile (renameFile fs.files p (safe_name fs T)) q = _
    apply lookupFile_rename_other
    · exact hq
    · intro hqd
      have h1 : existsP fs q = true := by
        simp only [existsP, hqex, Bool.true_or]
      rw [hqd, safe_name_free fs T] at h1
      exact Bool.noConfusion h1

theorem organize_file_preserves_lookup {fs : FS} {cfg : Config} {idx : Index} {p : PathT}
    {s : String} {f : PathT} {fs' : FS} {idx' : Index} {q : PathT}
    (h : organize_file fs cfg idx p = some (s, f, fs', idx'))
    (hq : q ≠ p) (hqex : isFileP fs q = true) :
    lookupFile fs'.files q = lookupFile fs.files q := by
  obtain ⟨T, hT⟩ := organize_file_fs_shape h
  rw [hT]
  exact move_file_preserves_lookup T cfg.dry_run hq hqex

theorem foldl_processOne_all_moved (cfg : Config) :
    ∀ (cands : List PathT) (fs : FS) (idx : Index) (m d : Nat),
      (∀ p ∈ cands, isFileP fs p = true) →
      cands.Pairwise (fun p q => digestOf fs p ≠ digestOf fs q) →
      (∀ p ∈ cands, ∀ dg, digestOf fs p = some dg → indexGet idx dg = none) →
      (cands.foldl (processOne cfg) (fs, idx, m, d)).2.2 = (m + cands.length, d) := by
  intro cands
  induction cands with
  | nil => intro fs idx m d _ _ _; simp
  | cons c cs ih =>
    intro fs idx m d hcand hpair hidx
    obtain ⟨⟨cc, cmt⟩, hlc⟩ := lookup_of_isFileP (hcand c (List.mem_cons_self c cs))
    have hdigc : digestOf fs c = some (sha256sum cc) := by simp [digestOf, hlc]
    have hnone : indexGet idx (sha256sum cc) = none :=
      hidx c (List.mem_cons_self c cs) _ hdigc
    have hstale : ∀ kp, indexGet idx (sha256sum cc) = some kp →
        existsP fs kp = false ∨ kp = c := by
      intro kp hkp
      rw [hnone] at hkp
      exact absurd hkp (by simp)
    have ho := @organize_file_eq_moved fs cfg idx c cc cmt hlc hstale
    have hstep : processOne cfg (fs, idx, m, d) c =
        ((move_file fs c (cfg.destination ++
          [classify_file c,
           if cfg.sort_mode = "source" then source_bucket c else month_bucket cmt,
           pathName c]) cfg.dry_run).1,
         indexSet idx (sha256sum cc)
           (move_file fs c (cfg.destination ++
             [classify_file c,
              if cfg.sort_mode = "source" then source_bucket c else month_bucket cmt,
              pathName c]) cfg.dry_run).2,
         m + 1, d) := by
      unfold processOne
      rw [ho]
      simp
    have hne : ∀ q ∈ cs, q ≠ c := by
      intro q hq hqc
      have := (List.pairwise_cons.mp hpair).1 q hq
      rw [hqc] at this
      exact this rfl
    have hpres : ∀ q ∈ cs, lookupFile
        ((move_file fs c (cfg.destination ++
          [classify_file c,
           if cfg.sort_mode = "source" then source_bucket c else month_bucket cmt,
           pathName c]) cfg.dry_run).1).files q = lookupFile fs.files q := by
      intro q hq
      exact move_file_preserves_lookup _ cfg.dry_run (hne q hq)
        (hcand q (List.mem_cons_of_mem c hq))
    have hdigpres : ∀ q ∈ cs, digestOf
        ((move_file fs c (cfg.destination ++
          [classify_file c,
           if cfg.sort_mode = "source" then source_bucket c else month_bucket cmt,
           pathName c]) cfg.dry_run).1) q = digestOf fs q := by
      intro q hq
      simp [digestOf, hpres q hq]
    rw [List.foldl_cons, hstep]
    rw [ih _ _ (m + 1) d ?hcand ?hpair ?hidx]
    · simp only [List.length_cons]
      congr 1
      omega
    case hcand =>
      intro q hq
      obtain ⟨cm, hcm⟩ := lookup_of_isFileP (hcand q (List.mem_cons_of_mem c hq))
      apply isFileP_of_lookup
      rw [hpres q hq]
      exact hcm
    case hpair =>
      have h1 := (List.pairwise_cons.mp hpair).2
      refine List.Pairwise.imp_of_mem ?_ h1
      intro a b ha hb hab
      rw [hdigpres a ha, hdigpres b hb]
      exact hab
    case hidx =>
      intro q hq dq hdq
      rw [hdigpres q hq] at hdq
      have hdgne : dq ≠ sha256sum cc := by
        intro heq
        have h1 := (List.pairwise_cons.mp hpair).1 q hq
        rw [hdigc, hdq, heq] at h1
        exact h1 rfl
      rw [indexGet_set_ne idx _ _ dq hdgne]
      exact hidx q (List.mem_cons_of_mem c hq) dq hdq

theorem cand_isFileP {fs : FS} {cfg : Config} {p : PathT}
    (h : p ∈ list_candidate_files fs cfg) : isFileP fs p = true := by
  unfold list_candidate_files at h
  rw [List.mem_filter] at h
  have h2 := h.2
  simp only [Bool.and_eq_true] at h2
  have h3 := h2.2
  rw [Bool.not_eq_true'] at h3
  unfold should_ignore at h3
  rw [Bool.or_eq_false_iff] at h3
  have h4 := h3.1
  simpa using h4

/-- C2 counterexample: two byte-identical files in the source, empty index.
The real pass reports one moved and one duplicate, but the dry-run pass on
the identical initial state reports two moved and no duplicate: in dry-run
the index entry recorded for the first file points at a target that was
never created on disk, so the second file's canonical-exists check fails
and it is classified as new content. -/
theorem organize_pass_dry_run_counts_counterexample :
    (organize_pass ⟨["src"], ["dst"], false, true, true, "date"⟩
        ⟨[(["src", "a.txt"], [1], (2024, 5)), (["src", "b.txt"], [1], (2024, 5))],
         [["src"]], none⟩).2 = (1, 1) ∧
    (organize_pass ⟨["src"], ["dst"], true, true, true, "date"⟩
        ⟨[(["src", "a.txt"], [1], (2024, 5)), (["src", "b.txt"], [1], (2024, 5))],
         [["src"]], none⟩).2 = (2, 0) ∧
    ((2, 0) : Nat × Nat) ≠ (1, 1) :=
  ⟨by decide, by decide, by decide⟩

/-- C2 (amended): a dry-run pass reports the same `(moved, duplicate)`
counts as the real pass on the identical initial state *provided* no two
candidates share a fingerprint and no candidate's fingerprint is already in
the loaded index (then every file is reported `moved` in both modes).  When
two byte-identical files are present, the counts differ: the real pass
reports one moved and one duplicate while the dry-run pass reports both as
moved, because the dry-run's recorded canonical target is never created on
disk (see the counterexample). -/
theorem organize_pass_dry_real_counts (cfg : Config) (fs : FS)
    (_hreal : cfg.dry_run = false)
    (hpair : (list_candidate_files (mkdirP fs cfg.destination) cfg).Pairwise
      (fun p q => digestOf (mkdirP fs cfg.destination) p ≠ digestOf (mkdirP fs cfg.destination) q))
    (hidx : ∀ p ∈ list_candidate_files (mkdirP fs cfg.destination) cfg,
      ∀ dg, digestOf (mkdirP fs cfg.destination) p = some dg →
        indexGet ((mkdirP fs cfg.destination).savedIndex.getD []) dg = none) :
    (organize_pass { cfg with dry_run := true } fs).2 = (organize_pass cfg fs).2 := by
  have hcand : ∀ p ∈ list_candidate_files (mkdirP fs cfg.destination) cfg,
      isFileP (mkdirP fs cfg.destination) p = true := fun p hp => cand_isFileP hp
  have hD := foldl_processOne_all_moved { cfg with dry_run := true }
    (list_candidate_files (mkdirP fs cfg.destination) cfg)
    (mkdirP fs cfg.destination) ((mkdirP fs cfg.destination).savedIndex.getD []) 0 0
    hcand hpair hidx
  have hR := foldl_processOne_all_moved cfg
    (list_candidate_files (mkdirP fs cfg.destination) cfg)
    (mkdirP fs cfg.destination) ((mkdirP fs cfg.destination).savedIndex.getD []) 0 0
    hcand hpair hidx
  show ((list_candidate_files (mkdirP fs cfg.destination) cfg).foldl
      (processOne { cfg with dry_run := true })
      (mkdirP fs cfg.destination, (mkdirP fs cfg.destination).savedIndex.getD [], 0, 0)).2.2 =
    ((list_candidate_files (mkdirP fs cfg.destination) cfg).foldl
      (processOne cfg)
      (mkdirP fs cfg.destination, (mkdirP fs cfg.destination).savedIndex.getD [], 0, 0)).2.2
  rw [hD, hR]

/-- Witness for the amended C2 at a concrete single-file state. -/
theorem organize_pass_dry_real_counts_witness :
    (organize_pass { (⟨["src"], ["dst"], false, true, true, "date"⟩ : Config) with
        dry_run := true }
      ⟨[(["src", "a.txt"], [1], (2024, 5))], [["src"]], none⟩).2 =
    (organize_pass (⟨["src"], ["dst"], false, true, true, "date"⟩ : Config)
      ⟨[(["src", "a.txt"], [1], (2024, 5))], [["src"]], none⟩).2 := by
  apply organize_pass_dry_real_counts
  · rfl
  · rw [show list_candidate_files
        (mkdirP ⟨[(["src", "a.txt"], [1], (2024, 5))], [["src"]], none⟩ ["dst"])
        (⟨["src"], ["dst"], false, true, true, "date"⟩ : Config) = [["src", "a.txt"]]
      from by decide]
    simp
  · intro p hp dg hdg
    rfl

/-! ## Idempotence of the pass -/

theorem isFileP_of_mem {fs : FS} {e : PathT × Content × Mtime} (h : e ∈ fs.files) :
    isFileP fs e.1 = true := by
  simp only [isFileP, List.any_eq_true, decide_eq_true_eq]
  exact ⟨e, h, rfl⟩

theorem organize_file_none {fs : FS} {cfg : Config} {idx : Index} {path : PathT}
    (h : organize_file fs cfg idx path = none) : lookupFile fs.files path = none := by
  cases hl : lookupFile fs.files path with
  | none => rfl
  | some cm =>
    obtain ⟨c, mt⟩ := cm
    cases hig : indexGet idx (sha256sum c) with
    | none =>
      rw [organize_file_eq_moved hl (fun kp hkp => by
        rw [hig] at hkp; exact absurd hkp (by simp))] at h
      exact absurd h (by simp)
    | some kp =>
      by_cases hex : existsP fs kp = true
      · by_cases hkp : kp = path
        · rw [organize_file_eq_moved hl (fun kp' hkp' => by
            rw [hig] at hkp'
            exact Or.inr (hkp ▸ (Option.some.inj hkp').symm ▸ rfl))] at h
          exact absurd h (by simp)
        · rw [organize_file_eq_dup hl hig hex hkp] at h
          exact absurd h (by simp)
      · rw [organize_file_eq_moved hl (fun kp' hkp' => by
          rw [hig] at hkp'
          rw [← Option.some.inj hkp']
          exact Or.inl (Bool.eq_false_iff.mpr hex))] at h
        exact absurd h (by simp)

theorem organize_file_fs_shape3 {fs : FS} {cfg : Config} {idx : Index} {path : PathT}
    {s : String} {f : PathT} {fs' : FS} {idx' : Index}
    (h : organize_file fs cfg idx path = some (s, f, fs', idx')) :
    ∃ a b c, fs' = (move_file fs path (cfg.destination ++ [a, b, c]) cfg.dry_run).1 := by
  cases hl : lookupFile fs.files path with
  | none =>
    unfold organize_file at h
    rw [hl] at h
    exact absurd h (by simp)
  | some cm =>
    obtain ⟨c, mt⟩ := cm
    have moved_case :
        (∀ kp, indexGet idx (sha256sum c) = some kp → existsP fs kp = false ∨ kp = path) →
        ∃ a b c', fs' = (move_file fs path (cfg.destination ++ [a, b, c']) cfg.dry_run).1 := by
      intro hstale
      rw [organize_file_eq_moved hl hstale] at h
      simp only [Option.some.injEq, Prod.mk.injEq] at h
      exact ⟨_, _, _, h.2.2.1.symm⟩
    cases hig : indexGet idx (sha256sum c) with
    | none =>
      exact moved_case (fun kp hkp => by rw [hig] at hkp; exact absurd hkp (by simp))
    | some kp =>
      by_cases hex : existsP fs kp = true
      · by_cases hkp : kp = path
        · exact moved_case (fun kp' hkp' => by
            rw [hig] at hkp'
            exact Or.inr (hkp ▸ (Option.some.inj hkp').symm ▸ rfl))
        · rw [organize_file_eq_dup hl hig hex hkp] at h
          simp only [Option.some.injEq, Prod.mk.injEq] at h
          exact ⟨_, _, _, h.2.2.1.symm⟩
      · exact moved_case (fun kp' hkp' => by
          rw [hig] at hkp'
          rw [← Option.some.inj hkp']
          exact Or.inl (Bool.eq_false_iff.mpr hex))

theorem organize_file_files_char {fs : FS} {cfg : Config} {idx : Index} {p : PathT}
    {s : String} {f : PathT} {fs' : FS} {idx' : Index} (hreal : cfg.dry_run = false)
    (h : organize_file fs cfg idx p = some (s, f, fs', idx')) :
    ∀ e ∈ fs'.files, cfg.destination <+: e.1 ∨ (e ∈ fs.files ∧ e.1 ≠ p) := by
  obtain ⟨a, b, c', hT⟩ := organize_file_fs_shape3 h
  rw [hreal] at hT
  intro e he
  rw [hT, move_file_real_files] at he
  rcases renameFile_mem he with h1 | ⟨h2, h3⟩
  · left
    rw [h1]
    exact safe_name_keeps_dest fs cfg.destination a b c'
  · exact Or.inr ⟨h2, h3⟩

theorem processOne_files_char {cfg : Config} (hreal : cfg.dry_run = false)
    (st : FS × Index × Nat × Nat) (p : PathT) :
    ∀ e ∈ (processOne cfg st p).1.files,
      cfg.destination <+: e.1 ∨ (e ∈ st.1.files ∧ e.1 ≠ p) := by
  unfold processOne
  cases ho : organize_file st.1 cfg st.2.1 p with
  | none =>
    intro e he
    exact Or.inr ⟨he, (lookupFile_eq_none_iff _ _).mp (organize_file_none ho) e he⟩
  | some r =>
    obtain ⟨s, f, fs', idx'⟩ := r
    show ∀ e ∈ (if s = "duplicate" then (fs', idx', st.2.2.1, st.2.2.2 + 1)
        else (fs', idx', st.2.2.1 + 1, st.2.2.2)).1.files,
      cfg.destination <+: e.1 ∨ (e ∈ st.1.files ∧ e.1 ≠ p)
    intro e he
    have he' : e ∈ fs'.files := by
      revert he
      split <;> exact fun he => he
    exact organize_file_files_char hreal ho e he'

theorem foldl_processOne_files_char {cfg : Config} (hreal : cfg.dry_run = false) :
    ∀ (cands : List PathT) (st : FS × Index × Nat × Nat),
      ∀ e ∈ (cands.foldl (processOne cfg) st).1.files,
        cfg.destination <+: e.1 ∨ (e ∈ st.1.files ∧ e.1 ∉ cands) := by
  intro cands
  induction cands with
  | nil => intro st e he; exact Or.inr ⟨he, List.not_mem_nil _⟩
  | cons c cs ih =>
    intro st e he
    rw [List.foldl_cons] at he
    rcases ih _ e he with h1 | ⟨h2, h3⟩
    · exact Or.inl h1
    · rcases processOne_files_char hreal st c e h2 with h4 | ⟨h5, h6⟩
      · exact Or.inl h4
      · refine Or.inr ⟨h5, ?_⟩
        simp only [List.mem_cons, not_or]
        exact ⟨h6, h3⟩

/-- C5: running a real (non-dry-run) pass twice with the source unchanged in
between yields `moved = 0` and `duplicates = 0` on the second run: the first
pass relocates every candidate under the destination tree, whose contents
the scanner excludes, and every non-candidate stays excluded for the same
path-only reasons as before. -/
theorem organize_pass_idempotent (cfg : Config) (fs : FS) (hreal : cfg.dry_run = false) :
    (organize_pass cfg (organize_pass cfg fs).1).2 = (0, 0) := by
  have hfiles : (organize_pass cfg fs).1.files =
      ((list_candidate_files (mkdirP fs cfg.destination) cfg).foldl (processOne cfg)
        (mkdirP fs cfg.destination, (mkdirP fs cfg.destination).savedIndex.getD [], 0, 0)).1.files := by
    simp only [organize_pass]
    rw [prune_files, save_index_files]
  have hkey : list_candidate_files (mkdirP (organize_pass cfg fs).1 cfg.destination) cfg = [] := by
    unfold list_candidate_files
    rw [List.filter_eq_nil_iff]
    intro p hp
    obtain ⟨e, he, rfl⟩ := List.mem_map.mp hp
    have he2 : e ∈ (organize_pass cfg fs).1.files := he
    rw [hfiles] at he2
    rcases foldl_processOne_files_char hreal _ _ e he2 with h1 | ⟨h2, h3⟩
    · have hig : should_ignore (mkdirP (organize_pass cfg fs).1 cfg.destination)
          cfg.destination e.1 = true := by
        simp [should_ignore, ignoreStatic, h1]
      simp [hig]
    · have hmem1 : e.1 ∈ (mkdirP fs cfg.destination).files.map (fun e => e.1) :=
        List.mem_map.mpr ⟨e, h2, rfl⟩
      have hpred1 : ¬((inScope cfg e.1 &&
          !(should_ignore (mkdirP fs cfg.destination) cfg.destination e.1)) = true) := by
        intro hp1
        exact h3 (List.mem_filter.mpr ⟨hmem1, hp1⟩)
      cases hsc : inScope cfg e.1 with
      | false => simp [hsc]
      | true =>
        have hig0 : should_ignore (mkdirP fs cfg.destination) cfg.destination e.1 = true := by
          cases hb : should_ignore (mkdirP fs cfg.destination) cfg.destination e.1 with
          | true => rfl
          | false => exact absurd (by simp [hsc, hb]) hpred1
        have hfile0 : isFileP (mkdirP fs cfg.destination) e.1 = true := isFileP_of_mem h2
        have hstat : ignoreStatic cfg.destination e.1 = true := by
          unfold should_ignore at hig0
          rw [hfile0] at hig0
          simpa using hig0
        have hig2 : should_ignore (mkdirP (organize_pass cfg fs).1 cfg.destination)
            cfg.destination e.1 = true := by
          simp [should_ignore, hstat]
        simp [hig2]
  show ((list_candidate_files (mkdirP (organize_pass cfg fs).1 cfg.destination) cfg).foldl
      (processOne cfg)
      (mkdirP (organize_pass cfg fs).1 cfg.destination,
       (mkdirP (organize_pass cfg fs).1 cfg.destination).savedIndex.getD [], 0, 0)).2.2 = (0, 0)
  rw [hkey]
  rfl

/-- Witness for C5 at a concrete real-mode configuration and state. -/
theorem organize_pass_idempotent_witness :
    (organize_pass (⟨["src"], ["dst"], false, true, false, "date"⟩ : Config)
      (organize_pass (⟨["src"], ["dst"], false, true, false, "date"⟩ : Config)
        ⟨[(["src", "a.txt"], [1], (2024, 5)), (["src", "b.txt"], [2], (2024, 6))],
         [["src"]], none⟩).1).2 = (0, 0) :=
  organize_pass_idempotent (⟨["src"], ["dst"], false, true, false, "date"⟩ : Config)
    ⟨[(["src", "a.txt"], [1], (2024, 5)), (["src", "b.txt"], [2], (2024, 6))],
     [["src"]], none⟩ rfl
